import Mathlib

/-!
Shallow embedding of the transcript event-stream parsing and pattern-detection
engine of the `cyborg` repository, together with proofs of the behavioural
properties claimed for it.

Embedded source files:
* `src/analysis/analyze_verification_patterns.py` (namespace `Verify`)
* `src/analysis/extract_micro_examples.py` (namespace `Micro`)
* `src/analysis/compute_weekly_delegation.py` (namespace `Delegation`)

Modelling conventions:
* Python dictionaries holding heterogeneous JSON values are replaced by typed
  structures covering exactly the keys the source reads.
* Machine floats become exact rationals (`ℚ`); all the arithmetic in scope is
  a few additions, multiplications and divisions of small values, where float
  and rational results agree up to the stated floating tolerance.
* `json.loads` and Python's `re` regular-expression routines are external
  library calls; they enter the embedding as explicit function parameters
  (`decode`, `contains_rejection`, `mk_preview`).  Every theorem below holds
  for all instantiations of these parameters.
-/

/-- The `input` field of a tool-use item.  The source only ever reads the keys
`"file_path"`, `"path"`, `"command"`, `"pattern"` after checking
`isinstance(tool_input, dict)`. -/
inductive ToolInput where
  | dict (file_path : Option String) (path : Option String)
      (command : Option String) (pattern : Option String)
  | nondict
deriving DecidableEq

/-- One content item of a transcript message.  The Python source reads
`item.get("type")` and dispatches on `"text"`, `"tool_use"`, `"tool_result"`;
a plain string element is only meaningful inside `_extract_text`. -/
inductive ContentItem where
  | text (s : String)
  | strItem (s : String)
  | tool_use (name : String) (input : ToolInput)
  | tool_result (is_error : Bool)
  | otherItem
deriving DecidableEq

/-- The `content` field of a message: a raw string, a list of items, or some
other JSON value (a missing field defaults to the empty list). -/
inductive MsgContent where
  | str (s : String)
  | items (l : List ContentItem)
  | otherContent
deriving DecidableEq

/-- One parsed transcript record, restricted to the fields the two analysis
scripts read: `entry.get("type")`, `entry.get("timestamp", "")`,
`message.get("role")`, `message.get("model")`, `message.get("content", [])`. -/
structure Entry where
  type : Option String
  timestamp : String
  role : Option String
  model : Option String
  content : MsgContent
deriving DecidableEq

/-- Python's `a or b` on two optional strings: `None` and `""` are falsy. -/
def pythonOrStr (a b : Option String) : Option String :=
  match a with
  | some s => if s = "" then b else some s
  | none => b

/-- Truthiness of an optional string (`if file_path_val:`). -/
def isTruthyOpt (o : Option String) : Bool :=
  match o with
  | some s => !(s == "")
  | none => false

/-- `tool_input.get("file_path") or tool_input.get("path")`, guarded by the
`isinstance(tool_input, dict)` check. -/
def file_path_val : ToolInput → Option String
  | .dict fp p _ _ => pythonOrStr fp p
  | .nondict => none

/-- `_extract_text`: concatenate the text blocks and plain strings of a
message content with single spaces; non-list, non-string content gives "". -/
def extractText : MsgContent → String
  | .str s => s
  | .items l => " ".intercalate (l.filterMap fun it =>
      match it with
      | .text s => some s
      | .strItem s => some s
      | _ => none)
  | .otherContent => ""

/-- `parse_jsonl`: strip each line, skip blank lines, decode the rest and drop
lines the decoder rejects.  The identical method appears in both analysis
scripts; `decode` stands for `json.loads` (returning `none` on
`JSONDecodeError`). -/
def parse_jsonl (decode : String → Option Entry) (lines : List String) :
    List Entry :=
  lines.filterMap fun line =>
    let line := line.trim
    if line = "" then none else decode line

namespace Verify

/-- The per-session counter dictionary built by `analyze_session`. -/
structure SessionMetrics where
  tool_uses : ℕ
  tool_errors : ℕ
  bash_failures : ℕ
  bash_retries : ℕ
  consecutive_edits : ℕ
  user_rejections : ℕ
  user_messages : ℕ
deriving DecidableEq

/-- One element of the `recent_tools` list:
`(tool_name, file_path, success, index)`.  Only the first two components are
ever read back; `success` is always `True` and `index` is the list length at
append time. -/
structure RecentTool where
  tool_name : String
  file_path : Option String
  success : Bool
  index : ℕ
deriving DecidableEq

/-- The running state of `analyze_session`. -/
structure AnalyzerState where
  metrics : SessionMetrics
  recent_tools : List RecentTool
  recent_bash_failed : Bool
deriving DecidableEq

def MODIFY_TOOLS : List String := ["Edit", "Write", "MultiEdit"]

/-- Python's `l[-5:]`. -/
def lastFive (l : List α) : List α := l.drop (l.length - 5)

/-- The lookback of lines 170–181: iterate `reversed(recent_tools[-5:])` and
stop at the first entry that is an Edit/Write/MultiEdit of the same path.  The
counter is incremented exactly when such an entry exists. -/
def correctionHit (recent : List RecentTool) (v : Option String) : Bool :=
  ((lastFive recent).reverse.find? fun p =>
    MODIFY_TOOLS.contains p.tool_name && p.file_path == v).isSome

/-- Processing of one `tool_use` content item by `analyze_session`. -/
def stepToolUse (st : AnalyzerState) (name : String) (input : ToolInput) :
    AnalyzerState :=
  let m := { st.metrics with tool_uses := st.metrics.tool_uses + 1 }
  let v := file_path_val input
  let retried := name == "Bash" && st.recent_bash_failed
  let m := if retried then { m with bash_retries := m.bash_retries + 1 } else m
  let rbf := if retried then false else st.recent_bash_failed
  let m := if MODIFY_TOOLS.contains name && isTruthyOpt v &&
              correctionHit st.recent_tools v
           then { m with consecutive_edits := m.consecutive_edits + 1 } else m
  { metrics := m
    recent_tools :=
      st.recent_tools ++ [⟨name, v, true, st.recent_tools.length⟩]
    recent_bash_failed := rbf }

/-- Processing of one `tool_result` content item by `analyze_session`. -/
def stepToolResult (st : AnalyzerState) (is_error : Bool) : AnalyzerState :=
  if is_error then
    let m := { st.metrics with tool_errors := st.metrics.tool_errors + 1 }
    match st.recent_tools.getLast? with
    | some r =>
        if r.tool_name = "Bash" then
          { st with
            metrics := { m with bash_failures := m.bash_failures + 1 }
            recent_bash_failed := true }
        else { st with metrics := m }
    | none => { st with metrics := m }
  else st

/-- Dispatch on one assistant content item.  (A plain-string element inside an
assistant content list would raise `AttributeError` in the source; no claim
exercises that case and it is treated as inert here, like a text block.) -/
def stepItem (st : AnalyzerState) (item : ContentItem) : AnalyzerState :=
  match item with
  | .tool_use name input => stepToolUse st name input
  | .tool_result is_error => stepToolResult st is_error
  | _ => st

/-- Processing of one record by `analyze_session`.  `contains_rejection`
abstracts `_contains_rejection` (a `re.search` over `REJECTION_KEYWORDS`). -/
def stepEntry (contains_rejection : String → Bool) (st : AnalyzerState)
    (e : Entry) : AnalyzerState :=
  if e.type = some "summary" then st
  else if e.role = some "user" then
    let m := { st.metrics with user_messages := st.metrics.user_messages + 1 }
    let m := if contains_rejection (extractText e.content) then
               { m with user_rejections := m.user_rejections + 1 } else m
    { st with metrics := m }
  else if e.role = some "assistant" then
    match e.content with
    | .items l => l.foldl stepItem st
    | _ => st
  else st

def initState : AnalyzerState :=
  { metrics := ⟨0, 0, 0, 0, 0, 0, 0⟩
    recent_tools := []
    recent_bash_failed := false }

/-- `analyze_session` restricted to an already-parsed record list. -/
def analyze_entries (contains_rejection : String → Bool)
    (entries : List Entry) : AnalyzerState :=
  entries.foldl (stepEntry contains_rejection) initState

/-- `analyze_session`: parse the session file's lines and fold the analyzer
over the resulting records, returning the session counter dictionary. -/
def analyze_session (decode : String → Option Entry)
    (contains_rejection : String → Bool) (lines : List String) :
    SessionMetrics :=
  (analyze_entries contains_rejection (parse_jsonl decode lines)).metrics

/-- The corpus-wide `VerificationMetrics` dataclass. -/
structure VerificationMetrics where
  total_tool_uses : ℕ
  tool_errors : ℕ
  bash_failures : ℕ
  bash_retries : ℕ
  consecutive_edits_same_file : ℕ
  user_rejection_messages : ℕ
  total_user_messages : ℕ
deriving DecidableEq

/-- `error_rate` property of `VerificationMetrics`. -/
def VerificationMetrics.error_rate (m : VerificationMetrics) : ℚ :=
  if 0 < m.total_tool_uses then (m.tool_errors : ℚ) / m.total_tool_uses else 0

/-- `bash_failure_rate` property of `VerificationMetrics`. -/
def VerificationMetrics.bash_failure_rate (m : VerificationMetrics) : ℚ :=
  if 0 < m.total_tool_uses then (m.bash_failures : ℚ) / m.total_tool_uses
  else 0

/-- `correction_rate` property of `VerificationMetrics`. -/
def VerificationMetrics.correction_rate (m : VerificationMetrics) : ℚ :=
  if 0 < m.total_tool_uses then
    (m.consecutive_edits_same_file : ℚ) / m.total_tool_uses
  else 0

/-- `user_rejection_rate` property of `VerificationMetrics`. -/
def VerificationMetrics.user_rejection_rate (m : VerificationMetrics) : ℚ :=
  if 0 < m.total_user_messages then
    (m.user_rejection_messages : ℚ) / m.total_user_messages
  else 0

/-- During `analyze_session` every increment of the session dictionary is
mirrored on `self.metrics`, so after `run` the corpus metrics are the
pointwise sum of the per-session dictionaries.  `addSession` is that pointwise
accumulation. -/
def addSession (g : VerificationMetrics) (s : SessionMetrics) :
    VerificationMetrics where
  total_tool_uses := g.total_tool_uses + s.tool_uses
  tool_errors := g.tool_errors + s.tool_errors
  bash_failures := g.bash_failures + s.bash_failures
  bash_retries := g.bash_retries + s.bash_retries
  consecutive_edits_same_file := g.consecutive_edits_same_file +
    s.consecutive_edits
  user_rejection_messages := g.user_rejection_messages + s.user_rejections
  total_user_messages := g.total_user_messages + s.user_messages

def zeroMetrics : VerificationMetrics := ⟨0, 0, 0, 0, 0, 0, 0⟩

/-- The corpus metrics produced by `run`: the fold of `addSession` over the
per-session results of `analyze_session`, with each session given as its
parsed record stream. -/
def run_metrics (contains_rejection : String → Bool)
    (sessions : List (List Entry)) : VerificationMetrics :=
  sessions.foldl
    (fun g entries =>
      addSession g (analyze_entries contains_rejection entries).metrics)
    zeroMetrics

/-- `verification_score` as computed in `_generate_report`
(`m.error_rate * 0.3 + m.correction_rate * 0.4 + m.user_rejection_rate * 0.3`). -/
def verification_score (m : VerificationMetrics) : ℚ :=
  m.error_rate * (3 / 10) + m.correction_rate * (4 / 10) +
    m.user_rejection_rate * (3 / 10)

/-- `endorsement_proxy = 1 - verification_score`. -/
def endorsement_proxy (m : VerificationMetrics) : ℚ :=
  1 - verification_score m

end Verify

namespace Micro

/-- `TOOL_CATEGORIES` of `extract_micro_examples.py`, in source (insertion)
order. -/
def TOOL_CATEGORIES : List (String × List String) :=
  [("exploration", ["Read", "Glob", "Grep", "WebSearch", "WebFetch", "LSP"]),
   ("modification", ["Write", "Edit", "MultiEdit", "NotebookEdit"]),
   ("execution", ["Bash", "Task", "TaskOutput", "KillShell"]),
   ("planning", ["TodoWrite", "EnterPlanMode", "ExitPlanMode"]),
   ("interaction", ["AskUserQuestion"])]

/-- `get_tool_category`: return the first category whose tool list contains
the name, and `"other"` for every unmapped name. -/
def get_tool_category (tool_name : String) : String :=
  match TOOL_CATEGORIES.find? (fun p => p.2.contains tool_name) with
  | some p => p.1
  | none => "other"

/-- The `ToolEvent` dataclass. -/
structure ToolEvent where
  tool_name : String
  category : String
  timestamp : String
  input_preview : String
  success : Bool
  model : Option String
  file_path : Option String
deriving DecidableEq

/-- The running state of `extract_tool_events`: the append-only `events` list
and the sticky `current_model`. -/
structure ExtractState where
  events : List ToolEvent
  current_model : Option String
deriving DecidableEq

/-- `events[-1].success = not is_error` as a functional update of the list:
the last element's `success` field is replaced, every other element and every
other field is untouched; on the empty list nothing happens. -/
def setLastSuccess (b : Bool) : List ToolEvent → List ToolEvent
  | [] => []
  | [e] => [{ e with success := b }]
  | e :: rest => e :: setLastSuccess b rest

/-- Processing of one content item by `extract_tool_events`.  `mk_preview`
abstracts `_create_input_preview` (whose Bash branch calls Python's `re.sub`);
its value is copied into the event and never inspected. -/
def extractItem (mk_preview : String → ToolInput → String) (timestamp : String)
    (st : ExtractState) (item : ContentItem) : ExtractState :=
  match item with
  | .tool_use name input =>
      { st with events := st.events ++
          [{ tool_name := name
             category := get_tool_category name
             timestamp := timestamp
             input_preview := mk_preview name input
             success := true
             model := st.current_model
             file_path := file_path_val input }] }
  | .tool_result is_error =>
      { st with events := setLastSuccess (!is_error) st.events }
  | _ => st

/-- Processing of one record by `extract_tool_events`: skip summaries, update
the sticky model when `message.get("model")` is truthy, then scan the content
items when the content is a list. -/
def extractEntry (mk_preview : String → ToolInput → String)
    (st : ExtractState) (e : Entry) : ExtractState :=
  if e.type = some "summary" then st
  else
    let st := if isTruthyOpt e.model then { st with current_model := e.model }
              else st
    match e.content with
    | .items l => l.foldl (extractItem mk_preview e.timestamp) st
    | _ => st

/-- `extract_tool_events` restricted to an already-parsed record list. -/
def extract_tool_events (mk_preview : String → ToolInput → String)
    (entries : List Entry) : List ToolEvent :=
  (entries.foldl (extractEntry mk_preview) ⟨[], none⟩).events

/-- The category of the event at an index, when the index is in range. -/
def catAt (events : List ToolEvent) (n : ℕ) : Option String :=
  (events[n]?).map (·.category)

/-- First index in `[lo, hi)` satisfying `p`, or `none`: the
`for n in range(lo, hi): ... break` idiom of the detectors' inner loops
(`List.range' lo (hi - lo)` is Python's `range(lo, hi)`). -/
def firstInRange (p : ℕ → Bool) (lo hi : ℕ) : Option ℕ :=
  (List.range' lo (hi - lo)).find? p

/-- The `while` loop of `find_execute_explore_modify_cycles`, entered at
index `i`.  At an execution event the first exploration event among the next
≤ 4 is sought; if one is found at `j`, the first modification event among the
next ≤ 4 after `j` is sought; a full hit emits `(i, k + 1)` and the loop
resumes at `k + 1` (the source sets `i = k` and then runs `i += 1`); any miss
advances `i` by one. -/
def eemLoop (events : List ToolEvent) (i : ℕ) : List (ℕ × ℕ) :=
  if h : i < events.length - 2 then
    if catAt events i = some "execution" then
      match hj : firstInRange (fun j => catAt events j == some "exploration")
          (i + 1) (min (i + 5) events.length) with
      | some j =>
          match hk : firstInRange
              (fun k => catAt events k == some "modification")
              (j + 1) (min (j + 5) events.length) with
          | some k => (i, k + 1) :: eemLoop events (k + 1)
          | none => eemLoop events (i + 1)
      | none => eemLoop events (i + 1)
    else eemLoop events (i + 1)
  else []
termination_by events.length - i
decreasing_by
  · have hm1 := List.mem_range'_1.1 (List.mem_of_find?_eq_some hj)
    have hm2 := List.mem_range'_1.1 (List.mem_of_find?_eq_some hk)
    omega
  · omega
  · omega
  · omega

end Micro

namespace Micro

/-- `find_execute_explore_modify_cycles`. -/
def find_execute_explore_modify_cycles (events : List ToolEvent) :
    List (ℕ × ℕ) :=
  eemLoop events 0

/-- Event at index `n` is a `Bash` invocation. -/
def isBashAt (events : List ToolEvent) (n : ℕ) : Bool :=
  match events[n]? with
  | some e => e.tool_name == "Bash"
  | none => false

/-- Event at index `n` is a failed `Bash` invocation. -/
def isFailedBashAt (events : List ToolEvent) (n : ℕ) : Bool :=
  match events[n]? with
  | some e => e.tool_name == "Bash" && !e.success
  | none => false

/-- `find_bash_retry_sequences`: for every failed Bash event at index `i`,
emit `(i, j + 1)` for the first Bash event at `j` among the next ≤ 4 events
(if any), and move on to `i + 1` regardless. -/
def find_bash_retry_sequences (events : List ToolEvent) : List (ℕ × ℕ) :=
  (List.range events.length).filterMap fun i =>
    if isFailedBashAt events i then
      (firstInRange (fun j => isBashAt events j) (i + 1)
        (min (i + 5) events.length)).map fun j => (i, j + 1)
    else none

/-- Append an index to a key's bucket in an insertion-ordered association
list, creating the bucket at the end for a new key: the behaviour of
`defaultdict(list)` under Python's insertion-ordered dict iteration. -/
def addEdit (key : String) (i : ℕ) :
    List (String × List ℕ) → List (String × List ℕ)
  | [] => [(key, [i])]
  | (k, is) :: rest =>
      if k = key then (k, is ++ [i]) :: rest else (k, is) :: addEdit key i rest

/-- The `file_edits` dictionary of `find_correction_sequences`: for every
modification event with a truthy `file_path`, its index is appended to the
bucket of that path. -/
def file_edits (events : List ToolEvent) : List (String × List ℕ) :=
  (List.range events.length).foldl
    (fun acc i =>
      match events[i]? with
      | some e =>
          if e.category == "modification" && isTruthyOpt e.file_path then
            addEdit (e.file_path.getD "") i acc
          else acc
      | none => acc)
    []

/-- The inner pair loop of `find_correction_sequences`: for every adjacent
pair of indices at distance ≤ 10, emit `(earlier, later + 1)`. -/
def adjacentPairs : List ℕ → List (ℕ × ℕ)
  | a :: b :: rest =>
      (if b - a ≤ 10 then [(a, b + 1)] else []) ++ adjacentPairs (b :: rest)
  | _ => []

/-- `find_correction_sequences`. -/
def find_correction_sequences (events : List ToolEvent) : List (ℕ × ℕ) :=
  (file_edits events).foldl
    (fun acc p => acc ++ if 2 ≤ p.2.length then adjacentPairs p.2 else []) []

/-- Two half-open index slices overlap. -/
def overlaps (a b : ℕ × ℕ) : Prop := max a.1 b.1 < min a.2 b.2

instance (a b : ℕ × ℕ) : Decidable (overlaps a b) := by
  unfold overlaps; infer_instance

/-- A concrete event with a given tool name and success flag, categorised by
`get_tool_category` as the extractor would. -/
def mkEv (name : String) (success : Bool) : ToolEvent :=
  { tool_name := name
    category := get_tool_category name
    timestamp := ""
    input_preview := ""
    success := success
    model := none
    file_path := some "" }

/-- A concrete successful modification event on a given file. -/
def mkEvF (name : String) (fp : String) : ToolEvent :=
  { mkEv name true with file_path := some fp }

end Micro

namespace Delegation

/-- `DELEGATION_WEIGHTS` of `compute_weekly_delegation.py`. -/
def DELEGATION_WEIGHTS : List (String × ℚ) :=
  [("exploration", 1), ("planning", 1), ("modification", 1 / 2),
   ("execution", 1 / 2), ("interaction", 0), ("other", 1 / 2)]

/-- `DELEGATION_WEIGHTS.get(category, 0.5)`. -/
def weightOf (category : String) : ℚ :=
  (DELEGATION_WEIGHTS.lookup category).getD (1 / 2)

/-- `compute_delegation_score`: the category-count dictionary is modelled as
an association list; `total` is the sum of the counts, and for a nonzero
total the score is `Σ ((count / total) · 100 · weight) / 100`. -/
def compute_delegation_score (category_counts : List (String × ℕ)) : ℚ :=
  let total : ℕ := (category_counts.map Prod.snd).sum
  if total = 0 then 0
  else
    let weighted_sum : ℚ :=
      (category_counts.map fun p =>
        (p.2 : ℚ) / (total : ℚ) * 100 * weightOf p.1).sum
    weighted_sum / 100

end Delegation

namespace Verify

/-- The two components of a `recent_tools` entry that the lookback reads. -/
def pr (r : RecentTool) : String × Option String := (r.tool_name, r.file_path)

/-- The `(name, file_path_val)` pairs of the tool-use items of one content
list, in order. -/
def toolUsePairs (l : List ContentItem) : List (String × Option String) :=
  l.filterMap fun it =>
    match it with
    | .tool_use n inp => some (n, file_path_val inp)
    | _ => none

/-- The tool-use pairs contributed by one record: only non-summary assistant
records with list content contribute. -/
def entry_tool_uses (e : Entry) : List (String × Option String) :=
  if e.type = some "summary" then []
  else if e.role = some "user" then []
  else if e.role = some "assistant" then
    match e.content with
    | .items l => toolUsePairs l
    | _ => []
  else []

/-- The tool-use pairs of a whole record stream, in order. -/
def tool_uses_of (entries : List Entry) : List (String × Option String) :=
  (entries.map entry_tool_uses).flatten

/-- The `consecutive_edits` total as the code computes it, restated over the
bare tool-use sequence: a use `(name, v)` counts when `name` is an
Edit/Write/MultiEdit with a truthy path `v` and `v` recurs as the path of a
modification entry among the previous 5 tool uses **of any kind**. -/
def count_corrections_code (prev : List (String × Option String)) :
    List (String × Option String) → ℕ
  | [] => 0
  | u :: rest =>
      (if MODIFY_TOOLS.contains u.1 && isTruthyOpt u.2 &&
          (lastFive prev).any (fun p => MODIFY_TOOLS.contains p.1 && p.2 == u.2)
       then 1 else 0) + count_corrections_code (prev ++ [u]) rest

/-- Modelled from the spec claim (not from the source): a use `(name, v)`
counts when `v` appears as the path of any of the previous 5 **modification**
events, i.e. the lookback window filters to Edit/Write/MultiEdit entries
before taking the last five. -/
def count_corrections_claim (prev : List (String × Option String)) :
    List (String × Option String) → ℕ
  | [] => 0
  | u :: rest =>
      (if MODIFY_TOOLS.contains u.1 && isTruthyOpt u.2 &&
          (lastFive (prev.filter fun p => MODIFY_TOOLS.contains p.1)).any
            (fun p => p.2 == u.2)
       then 1 else 0) + count_corrections_claim (prev ++ [u]) rest

/-- An assistant record carrying the given content items. -/
def asstEntry (l : List ContentItem) : Entry :=
  { type := none, timestamp := "", role := some "assistant", model := none
    content := .items l }

/-- A session whose single assistant record edits `a.py`, runs five Bash
commands, then edits `a.py` again: the earlier edit is the only previous
modification event but lies outside the previous-5-tool-events window. -/
def editAfterFiveBash : List Entry :=
  [asstEntry
    [.tool_use "Edit" (.dict (some "a.py") none none none),
     .tool_use "Bash" .nondict, .tool_use "Bash" .nondict,
     .tool_use "Bash" .nondict, .tool_use "Bash" .nondict,
     .tool_use "Bash" .nondict,
     .tool_use "Edit" (.dict (some "a.py") none none none)]]

/-- A session whose single assistant record contains one tool use followed by
two error tool results: both results increment `tool_errors` (and, the last
tool being Bash, `bash_failures`) against a single tool use. -/
def oneUseTwoErrors : List Entry :=
  [asstEntry [.tool_use "Bash" .nondict, .tool_result true, .tool_result true]]

/-- A session with one Bash use and one matching error result. -/
def oneUseOneError : List Entry :=
  [asstEntry [.tool_use "Bash" .nondict, .tool_result true]]

/-- A decoder mapping the line `"rec"` to the `oneUseTwoErrors` record and
rejecting everything else. -/
def decodeTwoErrors : String → Option Entry :=
  fun s => if s = "rec" then some (asstEntry
    [.tool_use "Bash" .nondict, .tool_result true, .tool_result true])
  else none

/-- A decoder mapping the line `"rec"` to the `oneUseOneError` record and
rejecting everything else. -/
def decodeOneError : String → Option Entry :=
  fun s => if s = "rec" then some (asstEntry
    [.tool_use "Bash" .nondict, .tool_result true])
  else none

/-- A decoder that decodes `"ok"` to a user record and fails on every other
line (in particular on the corrupt line `"corrupt"`). -/
def decodeOk : String → Option Entry :=
  fun s =>
    if s = "ok" then
      some { type := none, timestamp := "", role := some "user", model := none
             content := .items [] }
    else none

/-- The corpus metrics of §4.5 reached via `VerificationMetrics` for the
concrete example sessions used below: metrics with exact rates 0.10, 0.05
and 0.20 for the composite-score test. -/
def metricsTenFiveTwenty : VerificationMetrics :=
  { total_tool_uses := 100, tool_errors := 10, bash_failures := 0
    bash_retries := 0, consecutive_edits_same_file := 5
    user_rejection_messages := 20, total_user_messages := 100 }

end Verify

namespace Micro

/-- `[Bash(fail), Read, Bash(success)]`. -/
def retryHit : List ToolEvent := [mkEv "Bash" false, mkEv "Read" true, mkEv "Bash" true]

/-- `[Bash(fail), Read, Read, Read, Read, Read, Bash]` — the follow-up Bash
is more than 4 events after the failure. -/
def retryMiss : List ToolEvent :=
  [mkEv "Bash" false, mkEv "Read" true, mkEv "Read" true, mkEv "Read" true,
   mkEv "Read" true, mkEv "Read" true, mkEv "Bash" true]

/-- Two failed Bash events followed by a successful one: the retry detector
emits `(0, 2)` and `(1, 3)`, which overlap. -/
def retryOverlap : List ToolEvent :=
  [mkEv "Bash" false, mkEv "Bash" false, mkEv "Bash" true]

/-- Three successive edits of the same file: the correction detector emits
`(0, 2)` and `(1, 3)`, which overlap. -/
def editOverlap : List ToolEvent :=
  [mkEvF "Edit" "a.py", mkEvF "Edit" "a.py", mkEvF "Edit" "a.py"]

/-- `[execution, exploration, modification]` as concrete events. -/
def eemEvents : List ToolEvent :=
  [mkEv "Bash" true, mkEv "Read" true, mkEvF "Edit" "a.py"]

end Micro

/-- C2: `verification_score` equals
`0.3·error_rate + 0.4·correction_rate + 0.3·rejection_rate` and
`endorsement_proxy` equals `1 − verification_score`; for rates
`0.10, 0.05, 0.20` the score is exactly `0.11` and the proxy `0.89`. -/
theorem C2_verification_score (m : Verify.VerificationMetrics) :
    Verify.verification_score m =
      3 / 10 * m.error_rate + 4 / 10 * m.correction_rate +
        3 / 10 * m.user_rejection_rate ∧
    Verify.endorsement_proxy m = 1 - Verify.verification_score m ∧
    (m.error_rate = 1 / 10 → m.correction_rate = 1 / 20 →
      m.user_rejection_rate = 1 / 5 →
      Verify.verification_score m = 11 / 100 ∧
      Verify.endorsement_proxy m = 89 / 100) := by
  refine ⟨by unfold Verify.verification_score; ring, rfl,
    fun h1 h2 h3 => ?_⟩
  unfold Verify.endorsement_proxy Verify.verification_score
  rw [h1, h2, h3]
  norm_num

/-- Witness for C2 at metrics realising rates 0.10, 0.05, 0.20. -/
theorem C2_verification_score_witness :
    Verify.verification_score Verify.metricsTenFiveTwenty = 11 / 100 ∧
    Verify.endorsement_proxy Verify.metricsTenFiveTwenty = 89 / 100 :=
  (C2_verification_score Verify.metricsTenFiveTwenty).2.2
    (by norm_num [Verify.VerificationMetrics.error_rate,
      Verify.metricsTenFiveTwenty])
    (by norm_num [Verify.VerificationMetrics.correction_rate,
      Verify.metricsTenFiveTwenty])
    (by norm_num [Verify.VerificationMetrics.user_rejection_rate,
      Verify.metricsTenFiveTwenty])

/-- C7: `get_tool_category` is total and single-valued: every string is sent
to exactly one of the taxonomy's categories, and every name absent from the
table defaults to `"other"`. -/
theorem C7_category_total (s : String) :
    Micro.get_tool_category s ∈
      ["exploration", "modification", "execution", "planning",
       "interaction", "advanced", "other"] ∧
    ((∀ p ∈ Micro.TOOL_CATEGORIES, s ∉ p.2) →
      Micro.get_tool_category s = "other") := by
  constructor
  · unfold Micro.get_tool_category
    cases hf : Micro.TOOL_CATEGORIES.find? (fun p => p.2.contains s) with
    | none => simp
    | some p =>
      have hmem : p ∈ Micro.TOOL_CATEGORIES := List.mem_of_find?_eq_some hf
      unfold Micro.TOOL_CATEGORIES at hmem
      fin_cases hmem <;> simp
  · intro h
    unfold Micro.get_tool_category
    have hnone : Micro.TOOL_CATEGORIES.find? (fun p => p.2.contains s)
        = none := by
      rw [List.find?_eq_none]
      intro p hp
      simpa using h p hp
    rw [hnone]

/-- Witness for C7 at an unmapped (browser-automation) tool name. -/
theorem C7_category_total_witness :
    Micro.get_tool_category "mcp__playwright__browser_navigate" = "other" :=
  (C7_category_total "mcp__playwright__browser_navigate").2 (by decide)

/-- Every delegation weight, including the default for unknown categories,
lies in `[0, 1]`. -/
theorem Delegation.weightOf_bounds (c : String) :
    0 ≤ Delegation.weightOf c ∧ Delegation.weightOf c ≤ 1 := by
  unfold Delegation.weightOf Delegation.DELEGATION_WEIGHTS
  simp only [List.lookup]
  repeat' split
  all_goals norm_num

/-- C10: `compute_delegation_score` always lands in `[0, 1]`: it is `0` on an
empty total and otherwise equals `Σ (count/total · weight)` with every weight
in `[0, 1]` (unknown categories weighing 0.5). -/
theorem C10_delegation_score_bounds (cc : List (String × ℕ)) :
    0 ≤ Delegation.compute_delegation_score cc ∧
    Delegation.compute_delegation_score cc ≤ 1 ∧
    ((cc.map Prod.snd).sum = 0 → Delegation.compute_delegation_score cc = 0) ∧
    ((cc.map Prod.snd).sum ≠ 0 →
      Delegation.compute_delegation_score cc =
        (cc.map fun p =>
          (p.2 : ℚ) / ((cc.map Prod.snd).sum : ℚ) *
            Delegation.weightOf p.1).sum) ∧
    (∀ c, 0 ≤ Delegation.weightOf c ∧ Delegation.weightOf c ≤ 1) := by
  by_cases h0 : (cc.map Prod.snd).sum = 0
  · have hs : Delegation.compute_delegation_score cc = 0 := by
      unfold Delegation.compute_delegation_score
      rw [if_pos h0]
    exact ⟨by rw [hs], by rw [hs]; norm_num, fun _ => hs,
      fun h => absurd h0 h, Delegation.weightOf_bounds⟩
  · have hTpos : (0 : ℚ) < ((cc.map Prod.snd).sum : ℚ) := by
      exact_mod_cast Nat.pos_of_ne_zero h0
    have key : Delegation.compute_delegation_score cc =
        (cc.map fun p =>
          (p.2 : ℚ) / ((cc.map Prod.snd).sum : ℚ) *
            Delegation.weightOf p.1).sum := by
      unfold Delegation.compute_delegation_score
      rw [if_neg h0]
      have hmap : (cc.map fun p =>
            (p.2 : ℚ) / ((cc.map Prod.snd).sum : ℚ) * 100 *
              Delegation.weightOf p.1)
          = cc.map fun p =>
            ((p.2 : ℚ) / ((cc.map Prod.snd).sum : ℚ) *
              Delegation.weightOf p.1) * 100 := by
        apply List.map_congr_left
        intro p _
        ring
      rw [hmap, List.sum_map_mul_right, mul_div_assoc]
      norm_num
    have hsum_cast : (cc.map fun p => (p.2 : ℚ)).sum
        = ((cc.map Prod.snd).sum : ℚ) := by
      rw [Nat.cast_list_sum, List.map_map]
      rfl
    refine ⟨?_, ?_, fun h => absurd h h0, fun _ => key,
      Delegation.weightOf_bounds⟩
    · rw [key]
      apply List.sum_nonneg
      intro x hx
      obtain ⟨p, _, rfl⟩ := List.mem_map.1 hx
      exact mul_nonneg (div_nonneg (Nat.cast_nonneg _) (Nat.cast_nonneg _))
        (Delegation.weightOf_bounds p.1).1
    · rw [key]
      have hle : (cc.map fun p =>
            (p.2 : ℚ) / ((cc.map Prod.snd).sum : ℚ) *
              Delegation.weightOf p.1).sum ≤
          (cc.map fun p =>
            (p.2 : ℚ) / ((cc.map Prod.snd).sum : ℚ)).sum :=
        List.sum_le_sum fun p _ =>
          mul_le_of_le_one_right
            (div_nonneg (Nat.cast_nonneg _) (Nat.cast_nonneg _))
            (Delegation.weightOf_bounds p.1).2
      have heq : (cc.map fun p =>
            (p.2 : ℚ) / ((cc.map Prod.snd).sum : ℚ)).sum = 1 := by
        simp only [div_eq_mul_inv]
        rw [List.sum_map_mul_right, hsum_cast]
        exact mul_inv_cancel₀ (ne_of_gt hTpos)
      calc (cc.map fun p =>
            (p.2 : ℚ) / ((cc.map Prod.snd).sum : ℚ) *
              Delegation.weightOf p.1).sum
          ≤ (cc.map fun p =>
            (p.2 : ℚ) / ((cc.map Prod.snd).sum : ℚ)).sum := hle
        _ = 1 := heq

/-- Witness for C10 at the empty count dictionary. -/
theorem C10_delegation_score_bounds_witness :
    Delegation.compute_delegation_score [] = 0 :=
  (C10_delegation_score_bounds []).2.2.1 rfl

/-- C5: the execute→explore→modify detector on any three-event sequence of
categories execution, exploration, modification emits exactly the single
match `[0, 3)`. -/
theorem C5_eem_three_events (e0 e1 e2 : Micro.ToolEvent)
    (h0 : e0.category = "execution") (h1 : e1.category = "exploration")
    (h2 : e2.category = "modification") :
    Micro.find_execute_explore_modify_cycles [e0, e1, e2] = [(0, 3)] := by
  have hj : Micro.firstInRange
      (fun j => Micro.catAt [e0, e1, e2] j == some "exploration")
      (0 + 1) ((0 + 5) ⊓ [e0, e1, e2].length) = some 1 := by
    unfold Micro.firstInRange
    rw [show (0 + 5) ⊓ [e0, e1, e2].length - (0 + 1) = 2 by simp]
    rw [show List.range' (0 + 1) 2 = [1, 2] from rfl]
    rw [List.find?_cons]
    have hb : Micro.catAt [e0, e1, e2] 1 == some "exploration" := by
      simp [Micro.catAt, h1]
    rw [hb]
  have hk : Micro.firstInRange
      (fun k => Micro.catAt [e0, e1, e2] k == some "modification")
      (1 + 1) ((1 + 5) ⊓ [e0, e1, e2].length) = some 2 := by
    unfold Micro.firstInRange
    rw [show (1 + 5) ⊓ [e0, e1, e2].length - (1 + 1) = 1 by simp]
    rw [show List.range' (1 + 1) 1 = [2] from rfl]
    rw [List.find?_cons]
    have hb : Micro.catAt [e0, e1, e2] 2 == some "modification" := by
      simp [Micro.catAt, h2]
    rw [hb]
  have h00 : Micro.catAt [e0, e1, e2] 0 = some "execution" := by
    simp [Micro.catAt, h0]
  unfold Micro.find_execute_explore_modify_cycles
  rw [Micro.eemLoop]
  norm_num [h00]
  rw [hj]
  dsimp only
  rw [hk]
  dsimp only
  rw [Micro.eemLoop]
  norm_num

/-- Witness for C5 at concrete events `Bash ✓, Read ✓, Edit ✓`. -/
theorem C5_eem_three_events_witness :
    Micro.find_execute_explore_modify_cycles Micro.eemEvents = [(0, 3)] :=
  C5_eem_three_events (Micro.mkEv "Bash" true) (Micro.mkEv "Read" true)
    (Micro.mkEvF "Edit" "a.py") (by decide) (by decide) (by decide)

/-- Every match of the execute→explore→modify scan entered at `i` starts at
or after `i`. -/
theorem Micro.eemLoop_start_le (events : List Micro.ToolEvent) (i : ℕ) :
    ∀ m ∈ Micro.eemLoop events i, i ≤ m.1 := by
  intro m hm
  rw [Micro.eemLoop] at hm
  split at hm
  · split at hm
    · split at hm
      · split at hm
        · rcases List.mem_cons.1 hm with rfl | hm'
          · exact Nat.le_refl _
          · rename_i h hc j hj k hk
            have hm1 := List.mem_range'_1.1 (List.mem_of_find?_eq_some hj)
            have hm2 := List.mem_range'_1.1 (List.mem_of_find?_eq_some hk)
            have := Micro.eemLoop_start_le events (k + 1) m hm'
            omega
        · have := Micro.eemLoop_start_le events (i + 1) m hm
          omega
      · have := Micro.eemLoop_start_le events (i + 1) m hm
        omega
    · have := Micro.eemLoop_start_le events (i + 1) m hm
      omega
  · cases hm
termination_by events.length - i
decreasing_by
  · omega
  · omega
  · omega
  · omega

/-- The matches of the execute→explore→modify scan are emitted in order, each
one ending no later than the next one starts. -/
theorem Micro.eemLoop_pairwise (events : List Micro.ToolEvent) (i : ℕ) :
    (Micro.eemLoop events i).Pairwise (fun a b => a.2 ≤ b.1) := by
  rw [Micro.eemLoop]
  split
  · split
    · split
      · split
        · rename_i h hc j hj k hk
          have hm1 := List.mem_range'_1.1 (List.mem_of_find?_eq_some hj)
          have hm2 := List.mem_range'_1.1 (List.mem_of_find?_eq_some hk)
          refine List.Pairwise.cons ?_ (Micro.eemLoop_pairwise events (k + 1))
          intro b hb
          have := Micro.eemLoop_start_le events (k + 1) b hb
          omega
        · exact Micro.eemLoop_pairwise events (i + 1)
      · exact Micro.eemLoop_pairwise events (i + 1)
    · exact Micro.eemLoop_pairwise events (i + 1)
  · exact List.Pairwise.nil
termination_by events.length - i
decreasing_by
  · omega
  · omega
  · omega
  · omega

/-- C3 (amended): the execute→explore→modify detector never emits two
overlapping matches — its scan resumes past each match. -/
theorem C3_eem_disjoint (events : List Micro.ToolEvent) :
    (Micro.find_execute_explore_modify_cycles events).Pairwise
      (fun a b => a.2 ≤ b.1) :=
  Micro.eemLoop_pairwise events 0

/-- Counterexample to C3 as stated: both the bash-retry detector and the
correction-sequence detector emit the overlapping matches `(0, 2)` and
`(1, 3)` on a three-event input, because neither scan advances past a match
before resuming. -/
theorem C3_counterexample :
    Micro.find_bash_retry_sequences Micro.retryOverlap = [(0, 2), (1, 3)] ∧
    Micro.find_correction_sequences Micro.editOverlap = [(0, 2), (1, 3)] ∧
    Micro.overlaps (0, 2) (1, 3) := by
  refine ⟨by decide, by decide, by decide⟩

/-- `find?` over `range' lo k` finds exactly the least index in the window
satisfying the predicate. -/
theorem Micro.range'_find?_iff (p : ℕ → Bool) :
    ∀ (k lo n : ℕ), (List.range' lo k).find? p = some n ↔
      lo ≤ n ∧ n < lo + k ∧ p n = true ∧
        ∀ m, lo ≤ m → m < n → p m = false := by
  intro k
  induction k with
  | zero =>
      intro lo n
      simp only [List.range', List.find?_nil]
      constructor
      · rintro h
        cases h
      · rintro ⟨h1, h2, h3, h4⟩
        omega
  | succ k ih =>
      intro lo n
      rw [List.range'_succ, List.find?_cons]
      cases hp : p lo with
      | true =>
          simp only []
          constructor
          · rintro h
            injection h with h
            subst h
            exact ⟨Nat.le_refl _, by omega, hp, fun m h1 h2 => by omega⟩
          · rintro ⟨h1, h2, h3, h4⟩
            have hn : n = lo := by
              by_contra hne
              have hfl : p lo = false := h4 lo (Nat.le_refl _) (by omega)
              rw [hp] at hfl
              cases hfl
            rw [hn]
      | false =>
          simp only []
          rw [ih (lo + 1) n]
          constructor
          · rintro ⟨h1, h2, h3, h4⟩
            refine ⟨by omega, by omega, h3, fun m hm1 hm2 => ?_⟩
            rcases Nat.eq_or_lt_of_le hm1 with rfl | hlt
            · exact hp
            · exact h4 m hlt hm2
          · rintro ⟨h1, h2, h3, h4⟩
            have hne : n ≠ lo := fun he => by rw [he, hp] at h3; cases h3
            exact ⟨by omega, by omega, h3,
              fun m hm1 hm2 => h4 m (by omega) hm2⟩

/-- The bounded search of the detectors' inner loops finds exactly the first
index of its half-open window satisfying the predicate. -/
theorem Micro.firstInRange_eq_some_iff (p : ℕ → Bool) (lo hi n : ℕ) :
    Micro.firstInRange p lo hi = some n ↔
      lo ≤ n ∧ n < hi ∧ p n = true ∧ ∀ m, lo ≤ m → m < n → p m = false := by
  unfold Micro.firstInRange
  rw [Micro.range'_find?_iff]
  constructor
  · rintro ⟨h1, h2, h3, h4⟩
    exact ⟨h1, by omega, h3, h4⟩
  · rintro ⟨h1, h2, h3, h4⟩
    exact ⟨h1, by omega, h3, h4⟩

/-- A Bash event at an index implies the index is in range. -/
theorem Micro.isBashAt_lt {events : List Micro.ToolEvent} {i : ℕ}
    (h : Micro.isBashAt events i = true) : i < events.length := by
  unfold Micro.isBashAt at h
  by_contra hge
  rw [List.getElem?_eq_none (by omega)] at h
  cases h

/-- A failed Bash event at an index implies the index is in range. -/
theorem Micro.isFailedBashAt_lt {events : List Micro.ToolEvent} {i : ℕ}
    (h : Micro.isFailedBashAt events i = true) : i < events.length := by
  unfold Micro.isFailedBashAt at h
  by_contra hge
  rw [List.getElem?_eq_none (by omega)] at h
  cases h

/-- C6: the bash-retry detector emits `(i, j + 1)` exactly when the event at
`i` is a failed Bash event and `j` is the first index with
`i < j ≤ i + 4` holding a Bash event; on `[Bash(fail), Read, Bash(ok)]` it
returns exactly `[(0, 3)]`, and with a gap of five non-Bash events it returns
nothing. -/
theorem C6_bash_retry (events : List Micro.ToolEvent) :
    (∀ i e, ((i, e) ∈ Micro.find_bash_retry_sequences events ↔
      Micro.isFailedBashAt events i = true ∧
      ∃ j, e = j + 1 ∧ i < j ∧ j ≤ i + 4 ∧ Micro.isBashAt events j = true ∧
        ∀ m, i < m → m < j → Micro.isBashAt events m = false)) ∧
    Micro.find_bash_retry_sequences Micro.retryHit = [(0, 3)] ∧
    Micro.find_bash_retry_sequences Micro.retryMiss = [] := by
  refine ⟨?_, by decide, by decide⟩
  intro i e
  unfold Micro.find_bash_retry_sequences
  rw [List.mem_filterMap]
  constructor
  · rintro ⟨a, ha, hf⟩
    by_cases hfb : Micro.isFailedBashAt events a = true
    · rw [if_pos hfb] at hf
      rcases Option.map_eq_some'.1 hf with ⟨j, hj, hpair⟩
      have hai : a = i := congrArg Prod.fst hpair
      have hje : j + 1 = e := congrArg Prod.snd hpair
      subst hai
      rcases (Micro.firstInRange_eq_some_iff _ _ _ _).1 hj
        with ⟨h1, h2, h3, h4⟩
      refine ⟨hfb, j, hje.symm, by omega, by omega, h3,
        fun m hm1 hm2 => h4 m (by omega) hm2⟩
    · rw [if_neg hfb] at hf
      cases hf
  · rintro ⟨hfb, j, rfl, hij, hj4, hbj, hmin⟩
    refine ⟨i, List.mem_range.2 (Micro.isFailedBashAt_lt hfb), ?_⟩
    rw [if_pos hfb]
    have hfir : Micro.firstInRange (fun j => Micro.isBashAt events j)
        (i + 1) (min (i + 5) events.length) = some j := by
      rw [Micro.firstInRange_eq_some_iff]
      have hjlen := Micro.isBashAt_lt hbj
      exact ⟨by omega, by omega, hbj,
        fun m hm1 hm2 => hmin m (by omega) hm2⟩
    rw [hfir]
    rfl

/-- Witness for C6: the characterization instantiated on the retry-hit
example, certifying the membership of `(0, 3)`. -/
theorem C6_bash_retry_witness :
    (0, 3) ∈ Micro.find_bash_retry_sequences Micro.retryHit :=
  ((C6_bash_retry Micro.retryHit).1 0 3).2
    ⟨by decide, 2, rfl, by decide, by decide, by decide,
      by intro m h1 h2; have hm : m = 1 := by omega
         subst hm; decide⟩

/-- Updating the last element's success flag rewrites exactly that element. -/
theorem Micro.setLastSuccess_append (b : Bool) (l : List Micro.ToolEvent)
    (x : Micro.ToolEvent) :
    Micro.setLastSuccess b (l ++ [x]) = l ++ [{ x with success := b }] := by
  induction l with
  | nil => rfl
  | cons a l ih =>
      cases l with
      | nil => rfl
      | cons c l' =>
          show a :: Micro.setLastSuccess b ((c :: l') ++ [x]) = _
          rw [ih]
          rfl

/-- C8: on a tool-result item the extractor leaves the state unchanged when no
event has been appended yet, and otherwise rewrites exactly the `success`
field of the last appended event to `not is_error`, touching nothing else. -/
theorem C8_tool_result (mk_preview : String → ToolInput → String)
    (timestamp : String) (st : Micro.ExtractState) (is_error : Bool) :
    (st.events = [] →
      Micro.extractItem mk_preview timestamp st (.tool_result is_error) = st) ∧
    (∀ l x, st.events = l ++ [x] →
      Micro.extractItem mk_preview timestamp st (.tool_result is_error) =
        { st with events := l ++ [{ x with success := !is_error }] }) := by
  constructor
  · intro h
    cases st with
    | mk ev cm =>
        simp only [] at h
        subst h
        rfl
  · intro l x h
    cases st with
    | mk ev cm =>
        simp only [] at h
        subst h
        dsimp only [Micro.extractItem]
        rw [Micro.setLastSuccess_append]

/-- Witness for C8 on a one-event state. -/
theorem C8_tool_result_witness :
    Micro.extractItem (fun _ _ => "") "" ⟨[Micro.mkEv "Bash" true], none⟩
        (.tool_result true) =
      ⟨[{ Micro.mkEv "Bash" true with success := !true }], none⟩ :=
  (C8_tool_result (fun _ _ => "") "" ⟨[Micro.mkEv "Bash" true], none⟩ true).2
    [] (Micro.mkEv "Bash" true) rfl

/-- C9: replacing any single line of a session file with a line the decoder
rejects yields the same `SessionMetrics` as deleting the line: the malformed
line produces no record and processing continues. -/
theorem C9_malformed_line (decode : String → Option Entry)
    (contains_rejection : String → Bool) (xs ys : List String) (bad : String)
    (hbad : decode bad.trim = none) :
    Verify.analyze_session decode contains_rejection (xs ++ bad :: ys) =
      Verify.analyze_session decode contains_rejection (xs ++ ys) := by
  unfold Verify.analyze_session
  have hbad' : (if bad.trim = "" then (none : Option Entry)
      else decode bad.trim) = none := by
    split_ifs with h
    · rfl
    · exact hbad
  have hp : parse_jsonl decode (xs ++ bad :: ys) =
      parse_jsonl decode (xs ++ ys) := by
    unfold parse_jsonl
    rw [List.filterMap_append, List.filterMap_append, List.filterMap_cons]
    simp only [hbad']
  rw [hp]

/-- Witness for C9: one corrupt line among ten lines, under a decoder that
rejects every line (so the hypothesis holds by `rfl`). -/
theorem C9_malformed_line_witness :
    Verify.analyze_session (fun _ => none) (fun _ => false)
        (List.replicate 5 "ok" ++ "corrupt" :: List.replicate 5 "ok") =
      Verify.analyze_session (fun _ => none) (fun _ => false)
        (List.replicate 5 "ok" ++ List.replicate 5 "ok") :=
  C9_malformed_line (fun _ => none) (fun _ => false) _ _ "corrupt" rfl

/-- `find?` succeeds on a list exactly when some element satisfies the
predicate. -/
theorem Verify.find?_isSome_eq_any {α : Type} (l : List α) (p : α → Bool) :
    (l.find? p).isSome = l.any p := by
  induction l with
  | nil => rfl
  | cons a l ih =>
      rw [List.find?_cons, List.any_cons]
      cases hp : p a with
      | true => rfl
      | false => simpa using ih

/-- `any` over a mapped list tests the composed predicate. -/
theorem Verify.any_map_comp {α β : Type} (l : List α) (f : α → β)
    (p : β → Bool) : (l.map f).any p = l.any (fun a => p (f a)) := by
  induction l with
  | nil => rfl
  | cons a l ih => simp [ih]

/-- The break-at-first-hit lookback of `analyze_session` succeeds exactly when
the last five tool-use pairs contain a modification of the same path. -/
theorem Verify.correctionHit_eq (recent : List Verify.RecentTool)
    (v : Option String) :
    Verify.correctionHit recent v =
      (Verify.lastFive (recent.map Verify.pr)).any
        (fun p => Verify.MODIFY_TOOLS.contains p.1 && p.2 == v) := by
  unfold Verify.correctionHit Verify.lastFive
  rw [Verify.find?_isSome_eq_any, List.any_reverse, List.length_map,
    ← List.map_drop, Verify.any_map_comp]
  rfl

/-- Field-level behaviour of `stepToolUse`: `tool_uses` grows by one,
`consecutive_edits` grows by the correction indicator, user counters are
untouched, and the tool-use pair is appended to `recent_tools`. -/
theorem Verify.stepToolUse_spec (st : Verify.AnalyzerState) (name : String)
    (input : ToolInput) :
    (Verify.stepToolUse st name input).metrics.tool_uses
        = st.metrics.tool_uses + 1 ∧
    (Verify.stepToolUse st name input).metrics.consecutive_edits
        = st.metrics.consecutive_edits +
          (if Verify.MODIFY_TOOLS.contains name &&
              isTruthyOpt (file_path_val input) &&
              Verify.correctionHit st.recent_tools (file_path_val input)
           then 1 else 0) ∧
    (Verify.stepToolUse st name input).metrics.user_rejections
        = st.metrics.user_rejections ∧
    (Verify.stepToolUse st name input).metrics.user_messages
        = st.metrics.user_messages ∧
    (Verify.stepToolUse st name input).recent_tools
        = st.recent_tools ++
          [⟨name, file_path_val input, true, st.recent_tools.length⟩] := by
  unfold Verify.stepToolUse
  dsimp only
  split_ifs <;> simp

/-- Field-level behaviour of `stepToolResult`: it never touches `tool_uses`,
`consecutive_edits`, the user counters, or `recent_tools`. -/
theorem Verify.stepToolResult_spec (st : Verify.AnalyzerState)
    (is_error : Bool) :
    (Verify.stepToolResult st is_error).metrics.tool_uses
        = st.metrics.tool_uses ∧
    (Verify.stepToolResult st is_error).metrics.consecutive_edits
        = st.metrics.consecutive_edits ∧
    (Verify.stepToolResult st is_error).metrics.user_rejections
        = st.metrics.user_rejections ∧
    (Verify.stepToolResult st is_error).metrics.user_messages
        = st.metrics.user_messages ∧
    (Verify.stepToolResult st is_error).recent_tools = st.recent_tools := by
  unfold Verify.stepToolResult
  split_ifs
  · cases hl : st.recent_tools.getLast? with
    | none => simp
    | some r =>
        dsimp only
        split_ifs <;> simp
  · simp

/-- The corrections count splits over an appended use sequence. -/
theorem Verify.count_corrections_code_append
    (a b : List (String × Option String)) :
    ∀ prev, Verify.count_corrections_code prev (a ++ b) =
      Verify.count_corrections_code prev a +
        Verify.count_corrections_code (prev ++ a) b := by
  induction a with
  | nil =>
      intro prev
      simp [Verify.count_corrections_code]
  | cons u a ih =>
      intro prev
      simp only [List.cons_append, Verify.count_corrections_code,
        List.append_eq]
      rw [ih (prev ++ [u])]
      rw [List.append_assoc]
      simp only [List.singleton_append]
      omega

/-- At most one correction is counted per tool use. -/
theorem Verify.count_corrections_code_le
    (uses : List (String × Option String)) :
    ∀ prev, Verify.count_corrections_code prev uses ≤ uses.length := by
  induction uses with
  | nil =>
      intro prev
      simp [Verify.count_corrections_code]
  | cons u rest ih =>
      intro prev
      simp only [Verify.count_corrections_code, List.length_cons]
      have := ih (prev ++ [u])
      split_ifs <;> omega

/-- Folding the item dispatcher over one content list: the tool-use pairs are
appended to `recent_tools`, `tool_uses` grows by their number,
`consecutive_edits` grows by the corrections count against the previous
pairs, and the user counters are untouched. -/
theorem Verify.foldItems_spec (l : List ContentItem) :
    ∀ st : Verify.AnalyzerState,
      (l.foldl Verify.stepItem st).recent_tools.map Verify.pr
          = st.recent_tools.map Verify.pr ++ Verify.toolUsePairs l ∧
      (l.foldl Verify.stepItem st).metrics.consecutive_edits
          = st.metrics.consecutive_edits +
            Verify.count_corrections_code (st.recent_tools.map Verify.pr)
              (Verify.toolUsePairs l) ∧
      (l.foldl Verify.stepItem st).metrics.tool_uses
          = st.metrics.tool_uses + (Verify.toolUsePairs l).length ∧
      (l.foldl Verify.stepItem st).metrics.user_rejections
          = st.metrics.user_rejections ∧
      (l.foldl Verify.stepItem st).metrics.user_messages
          = st.metrics.user_messages := by
  induction l with
  | nil =>
      intro st
      simp [Verify.toolUsePairs, Verify.count_corrections_code]
  | cons it l ih =>
      intro st
      cases it with
      | tool_use n inp =>
          obtain ⟨h1, h2, h3, h4, h5⟩ := Verify.stepToolUse_spec st n inp
          obtain ⟨i1, i2, i3, i4, i5⟩ := ih (Verify.stepToolUse st n inp)
          have hpairs : Verify.toolUsePairs (ContentItem.tool_use n inp :: l)
              = (n, file_path_val inp) :: Verify.toolUsePairs l := by
            simp [Verify.toolUsePairs]
          have hrt : (Verify.stepToolUse st n inp).recent_tools.map Verify.pr
              = st.recent_tools.map Verify.pr ++ [(n, file_path_val inp)] := by
            rw [h5]
            simp [Verify.pr]
          have hfold :
              (ContentItem.tool_use n inp :: l).foldl Verify.stepItem st
                = l.foldl Verify.stepItem (Verify.stepToolUse st n inp) := rfl
          rw [hfold, hpairs]
          refine ⟨?_, ?_, ?_, ?_, ?_⟩
          · rw [i1, hrt, List.append_assoc]
            rfl
          · rw [i2, hrt, h2, Verify.correctionHit_eq]
            simp only [Verify.count_corrections_code]
            dsimp only
            omega
          · rw [i3, h1, List.length_cons]
            omega
          · rw [i4, h3]
          · rw [i5, h4]
      | tool_result b =>
          obtain ⟨r1, r2, r3, r4, r5⟩ := Verify.stepToolResult_spec st b
          obtain ⟨i1, i2, i3, i4, i5⟩ := ih (Verify.stepToolResult st b)
          have hpairs : Verify.toolUsePairs (ContentItem.tool_result b :: l)
              = Verify.toolUsePairs l := by
            simp [Verify.toolUsePairs]
          have hfold :
              (ContentItem.tool_result b :: l).foldl Verify.stepItem st
                = l.foldl Verify.stepItem (Verify.stepToolResult st b) := rfl
          rw [hfold, hpairs]
          exact ⟨by rw [i1, r5], by rw [i2, r2, r5], by rw [i3, r1],
            by rw [i4, r3], by rw [i5, r4]⟩
      | text s =>
          have hpairs : Verify.toolUsePairs (ContentItem.text s :: l)
              = Verify.toolUsePairs l := by
            simp [Verify.toolUsePairs]
          have hfold : (ContentItem.text s :: l).foldl Verify.stepItem st
              = l.foldl Verify.stepItem st := rfl
          rw [hfold, hpairs]
          exact ih st
      | strItem s =>
          have hpairs : Verify.toolUsePairs (ContentItem.strItem s :: l)
              = Verify.toolUsePairs l := by
            simp [Verify.toolUsePairs]
          have hfold : (ContentItem.strItem s :: l).foldl Verify.stepItem st
              = l.foldl Verify.stepItem st := rfl
          rw [hfold, hpairs]
          exact ih st
      | otherItem =>
          have hpairs : Verify.toolUsePairs (ContentItem.otherItem :: l)
              = Verify.toolUsePairs l := by
            simp [Verify.toolUsePairs]
          have hfold : (ContentItem.otherItem :: l).foldl Verify.stepItem st
              = l.foldl Verify.stepItem st := rfl
          rw [hfold, hpairs]
          exact ih st

/-- Per-record behaviour of the analyzer on the tracked fields: a record's
tool-use pairs are appended and counted, and `consecutive_edits` grows by the
corrections count of the record's uses against the session history. -/
theorem Verify.stepEntry_spec (cr : String → Bool) (e : Entry)
    (st : Verify.AnalyzerState) :
    (Verify.stepEntry cr st e).recent_tools.map Verify.pr
        = st.recent_tools.map Verify.pr ++ Verify.entry_tool_uses e ∧
    (Verify.stepEntry cr st e).metrics.consecutive_edits
        = st.metrics.consecutive_edits +
          Verify.count_corrections_code (st.recent_tools.map Verify.pr)
            (Verify.entry_tool_uses e) ∧
    (Verify.stepEntry cr st e).metrics.tool_uses
        = st.metrics.tool_uses + (Verify.entry_tool_uses e).length := by
  unfold Verify.stepEntry Verify.entry_tool_uses
  dsimp only
  split_ifs with h1 h2 h3 h4
  · simp [Verify.count_corrections_code]
  · simp [Verify.count_corrections_code]
  · simp [Verify.count_corrections_code]
  · cases hc : e.content with
    | items l =>
        obtain ⟨f1, f2, f3, _, _⟩ := Verify.foldItems_spec l st
        exact ⟨f1, f2, f3⟩
    | str s => simp [Verify.count_corrections_code]
    | otherContent => simp [Verify.count_corrections_code]
  · simp [Verify.count_corrections_code]

/-- Every analyzer step preserves `user_rejections ≤ user_messages`. -/
theorem Verify.stepEntry_userInv (cr : String → Bool) (e : Entry)
    (st : Verify.AnalyzerState)
    (h : st.metrics.user_rejections ≤ st.metrics.user_messages) :
    (Verify.stepEntry cr st e).metrics.user_rejections
      ≤ (Verify.stepEntry cr st e).metrics.user_messages := by
  unfold Verify.stepEntry
  dsimp only
  split_ifs with h1 h2 h3 h4
  · exact h
  · simp
    omega
  · simp
    omega
  · cases hc : e.content with
    | items l =>
        obtain ⟨_, _, _, f4, f5⟩ := Verify.foldItems_spec l st
        rw [f4, f5]
        exact h
    | str s => exact h
    | otherContent => exact h
  · exact h

/-- Whole-session behaviour of the analyzer on the tracked fields. -/
theorem Verify.foldEntries_spec (cr : String → Bool) (entries : List Entry) :
    ∀ st : Verify.AnalyzerState,
      (entries.foldl (Verify.stepEntry cr) st).recent_tools.map Verify.pr
          = st.recent_tools.map Verify.pr ++ Verify.tool_uses_of entries ∧
      (entries.foldl (Verify.stepEntry cr) st).metrics.consecutive_edits
          = st.metrics.consecutive_edits +
            Verify.count_corrections_code (st.recent_tools.map Verify.pr)
              (Verify.tool_uses_of entries) ∧
      (entries.foldl (Verify.stepEntry cr) st).metrics.tool_uses
          = st.metrics.tool_uses + (Verify.tool_uses_of entries).length := by
  induction entries with
  | nil =>
      intro st
      simp [Verify.tool_uses_of, Verify.count_corrections_code]
  | cons e es ih =>
      intro st
      obtain ⟨s1, s2, s3⟩ := Verify.stepEntry_spec cr e st
      obtain ⟨i1, i2, i3⟩ := ih (Verify.stepEntry cr st e)
      have hto : Verify.tool_uses_of (e :: es)
          = Verify.entry_tool_uses e ++ Verify.tool_uses_of es := by
        simp [Verify.tool_uses_of]
      have hfold : (e :: es).foldl (Verify.stepEntry cr) st
          = es.foldl (Verify.stepEntry cr) (Verify.stepEntry cr st e) := rfl
      rw [hfold, hto]
      refine ⟨?_, ?_, ?_⟩
      · rw [i1, s1, List.append_assoc]
      · rw [i2, s1, s2, Verify.count_corrections_code_append]
        omega
      · rw [i3, s3, List.length_append]
        omega

/-- The whole session preserves `user_rejections ≤ user_messages`. -/
theorem Verify.foldEntries_userInv (cr : String → Bool)
    (entries : List Entry) :
    ∀ st : Verify.AnalyzerState,
      st.metrics.user_rejections ≤ st.metrics.user_messages →
      (entries.foldl (Verify.stepEntry cr) st).metrics.user_rejections
        ≤ (entries.foldl (Verify.stepEntry cr) st).metrics.user_messages := by
  induction entries with
  | nil =>
      intro st h
      exact h
  | cons e es ih =>
      intro st h
      exact ih _ (Verify.stepEntry_userInv cr e st h)

/-- A session's counters satisfy `consecutive_edits ≤ tool_uses` and
`user_rejections ≤ user_messages`. -/
theorem Verify.session_inv (cr : String → Bool) (entries : List Entry) :
    (Verify.analyze_entries cr entries).metrics.consecutive_edits
      ≤ (Verify.analyze_entries cr entries).metrics.tool_uses ∧
    (Verify.analyze_entries cr entries).metrics.user_rejections
      ≤ (Verify.analyze_entries cr entries).metrics.user_messages := by
  constructor
  · obtain ⟨_, h2, h3⟩ := Verify.foldEntries_spec cr entries Verify.initState
    have hle := Verify.count_corrections_code_le
      (Verify.tool_uses_of entries)
      (Verify.initState.recent_tools.map Verify.pr)
    unfold Verify.analyze_entries
    have e1 : Verify.initState.metrics.consecutive_edits = 0 := rfl
    have e2 : Verify.initState.metrics.tool_uses = 0 := rfl
    omega
  · exact Verify.foldEntries_userInv cr entries Verify.initState
      (by simp [Verify.initState])

/-- The corpus fold preserves both counter invariants. -/
theorem Verify.run_fold_inv (cr : String → Bool)
    (sessions : List (List Entry)) :
    ∀ g : Verify.VerificationMetrics,
      g.consecutive_edits_same_file ≤ g.total_tool_uses →
      g.user_rejection_messages ≤ g.total_user_messages →
      (sessions.foldl (fun g entries => Verify.addSession g
          (Verify.analyze_entries cr entries).metrics) g).consecutive_edits_same_file
        ≤ (sessions.foldl (fun g entries => Verify.addSession g
          (Verify.analyze_entries cr entries).metrics) g).total_tool_uses ∧
      (sessions.foldl (fun g entries => Verify.addSession g
          (Verify.analyze_entries cr entries).metrics) g).user_rejection_messages
        ≤ (sessions.foldl (fun g entries => Verify.addSession g
          (Verify.analyze_entries cr entries).metrics) g).total_user_messages := by
  induction sessions with
  | nil =>
      intro g h1 h2
      exact ⟨h1, h2⟩
  | cons es rest ih =>
      intro g h1 h2
      have hs := Verify.session_inv cr es
      apply ih
      · unfold Verify.addSession
        dsimp only
        omega
      · unfold Verify.addSession
        dsimp only
        omega

/-- The corpus metrics satisfy both counter invariants. -/
theorem Verify.run_metrics_inv (cr : String → Bool)
    (sessions : List (List Entry)) :
    (Verify.run_metrics cr sessions).consecutive_edits_same_file
      ≤ (Verify.run_metrics cr sessions).total_tool_uses ∧
    (Verify.run_metrics cr sessions).user_rejection_messages
      ≤ (Verify.run_metrics cr sessions).total_user_messages := by
  unfold Verify.run_metrics
  exact Verify.run_fold_inv cr sessions Verify.zeroMetrics
    (by simp [Verify.zeroMetrics]) (by simp [Verify.zeroMetrics])

/-- The four derived rates are nonnegative, and each is at most 1 whenever
its numerator counter is at most its denominator counter. -/
theorem Verify.rate_bounds (m : Verify.VerificationMetrics) :
    0 ≤ m.error_rate ∧ 0 ≤ m.bash_failure_rate ∧ 0 ≤ m.correction_rate ∧
    0 ≤ m.user_rejection_rate ∧
    (m.tool_errors ≤ m.total_tool_uses → m.error_rate ≤ 1) ∧
    (m.bash_failures ≤ m.total_tool_uses → m.bash_failure_rate ≤ 1) ∧
    (m.consecutive_edits_same_file ≤ m.total_tool_uses →
      m.correction_rate ≤ 1) ∧
    (m.user_rejection_messages ≤ m.total_user_messages →
      m.user_rejection_rate ≤ 1) := by
  unfold Verify.VerificationMetrics.error_rate
    Verify.VerificationMetrics.bash_failure_rate
    Verify.VerificationMetrics.correction_rate
    Verify.VerificationMetrics.user_rejection_rate
  refine ⟨?_, ?_, ?_, ?_, fun h => ?_, fun h => ?_, fun h => ?_, fun h => ?_⟩
  · split_ifs
    · exact div_nonneg (Nat.cast_nonneg _) (Nat.cast_nonneg _)
    · exact le_refl 0
  · split_ifs
    · exact div_nonneg (Nat.cast_nonneg _) (Nat.cast_nonneg _)
    · exact le_refl 0
  · split_ifs
    · exact div_nonneg (Nat.cast_nonneg _) (Nat.cast_nonneg _)
    · exact le_refl 0
  · split_ifs
    · exact div_nonneg (Nat.cast_nonneg _) (Nat.cast_nonneg _)
    · exact le_refl 0
  · split_ifs with hpos
    · rw [div_le_one (by exact_mod_cast hpos)]
      exact_mod_cast h
    · norm_num
  · split_ifs with hpos
    · rw [div_le_one (by exact_mod_cast hpos)]
      exact_mod_cast h
    · norm_num
  · split_ifs with hpos
    · rw [div_le_one (by exact_mod_cast hpos)]
      exact_mod_cast h
    · norm_num
  · split_ifs with hpos
    · rw [div_le_one (by exact_mod_cast hpos)]
      exact_mod_cast h
    · norm_num

/-- C1 (amended): for every record-stream corpus, all four rates are
nonnegative, `correction_rate` and `rejection_rate` always lie in `[0, 1]`,
and `error_rate` and `bash_failure_rate` lie in `[0, 1]` whenever their
numerator counters do not exceed `total_tool_uses` (streams with more error
tool-results than tool uses can push them above 1). -/
theorem C1_rates (cr : String → Bool) (sessions : List (List Entry)) :
    0 ≤ (Verify.run_metrics cr sessions).error_rate ∧
    0 ≤ (Verify.run_metrics cr sessions).bash_failure_rate ∧
    0 ≤ (Verify.run_metrics cr sessions).correction_rate ∧
    0 ≤ (Verify.run_metrics cr sessions).user_rejection_rate ∧
    (Verify.run_metrics cr sessions).correction_rate ≤ 1 ∧
    (Verify.run_metrics cr sessions).user_rejection_rate ≤ 1 ∧
    ((Verify.run_metrics cr sessions).tool_errors
        ≤ (Verify.run_metrics cr sessions).total_tool_uses →
      (Verify.run_metrics cr sessions).error_rate ≤ 1) ∧
    ((Verify.run_metrics cr sessions).bash_failures
        ≤ (Verify.run_metrics cr sessions).total_tool_uses →
      (Verify.run_metrics cr sessions).bash_failure_rate ≤ 1) := by
  obtain ⟨hi1, hi2⟩ := Verify.run_metrics_inv cr sessions
  obtain ⟨b1, b2, b3, b4, b5, b6, b7, b8⟩ :=
    Verify.rate_bounds (Verify.run_metrics cr sessions)
  exact ⟨b1, b2, b3, b4, b7 hi1, b8 hi2, b5, b6⟩

/-- Witness for C1 on a session whose single error result matches its single
tool use, so the conditional bounds apply. -/
theorem C1_rates_witness :
    (Verify.run_metrics (fun _ => false) [Verify.oneUseOneError]).error_rate
        ≤ 1 ∧
    (Verify.run_metrics (fun _ => false)
        [Verify.oneUseOneError]).bash_failure_rate ≤ 1 :=
  ⟨(C1_rates (fun _ => false) [Verify.oneUseOneError]).2.2.2.2.2.2.1
      (by decide),
    (C1_rates (fun _ => false) [Verify.oneUseOneError]).2.2.2.2.2.2.2
      (by decide)⟩

/-- Counterexample to C1 as stated: a stream with one tool use followed by
two error tool-results yields `error_rate = bash_failure_rate = 2 > 1`. -/
theorem C1_counterexample :
    (Verify.run_metrics (fun _ => false) [Verify.oneUseTwoErrors]).error_rate
        = 2 ∧
    (Verify.run_metrics (fun _ => false)
        [Verify.oneUseTwoErrors]).bash_failure_rate = 2 ∧
    ¬((2 : ℚ) ≤ 1) := by
  have hm : Verify.run_metrics (fun _ => false) [Verify.oneUseTwoErrors] =
      { total_tool_uses := 1, tool_errors := 2, bash_failures := 2
        bash_retries := 0, consecutive_edits_same_file := 0
        user_rejection_messages := 0, total_user_messages := 0 } := by decide
  rw [hm]
  refine ⟨?_, ?_, by norm_num⟩
  · norm_num [Verify.VerificationMetrics.error_rate]
  · norm_num [Verify.VerificationMetrics.bash_failure_rate]

/-- C4 (amended): an Edit/Write/MultiEdit use with a truthy `file_path` is
counted as an immediate correction (at most once per invocation) exactly when
the same path occurs as a modification entry among the previous 5 tool uses
**of any kind** in the session — the code's lookback window is the last five
`recent_tools` entries, not the last five modification events. -/
theorem C4_consecutive_edits (cr : String → Bool) (entries : List Entry) :
    (Verify.analyze_entries cr entries).metrics.consecutive_edits =
      Verify.count_corrections_code [] (Verify.tool_uses_of entries) := by
  obtain ⟨_, h2, _⟩ := Verify.foldEntries_spec cr entries Verify.initState
  unfold Verify.analyze_entries
  rw [h2]
  simp [Verify.initState]

/-- Counterexample to C4 as stated: in the `Edit a.py, Bash ×5, Edit a.py`
session the earlier edit is among the previous 5 modification events (it is
the only one), so the claim counts one correction, but the code counts
none — the five Bash uses fill its lookback window. -/
theorem C4_counterexample :
    Verify.count_corrections_claim []
        (Verify.tool_uses_of Verify.editAfterFiveBash) = 1 ∧
    (Verify.analyze_entries (fun _ => false)
        Verify.editAfterFiveBash).metrics.consecutive_edits = 0 := by
  exact ⟨by decide, by decide⟩
